import Mathlib

/-!
# tour-api-conn: query construction and request execution

A shallow embedding of `main.go` (package `tour-api-conn`): the two parameter
records, `initParams`, `setParams`, `requestTourData`, the facades
`GetSightList` and `GetSightInfo`, and `main`.

Go strings are byte sequences.  The standard-library functions the program calls
(`url.Values.Add`, `url.Values.Encode`, `url.QueryEscape`, `url.ParseQuery`,
`fmt.Sprint`, `URL.String`) are embedded from the Go sources, restricted to the
paths this program takes.
-/

namespace TourApi

/-! ## Go strings -/

/-- One byte of a Go string. -/
abbrev Byte := Fin 256

/-- A Go `string`: an immutable sequence of bytes. -/
abbrev GoString := List Byte

/-- The byte of an ASCII character. -/
def chr (c : Char) : Byte := Fin.ofNat c.toNat

/-- The bytes of an ASCII string literal of the source. -/
def ascii (s : String) : GoString := s.toList.map chr

/-- Go's `<` on strings: bytewise lexicographic order. -/
def strLess : GoString → GoString → Bool
  | [], [] => false
  | [], _ :: _ => true
  | _ :: _, [] => false
  | a :: as, b :: bs => if a < b then true else if b < a then false else strLess as bs

/-- `strings.Contains(s, sub)` through `List.IsInfix`. -/
def Contains (s sub : GoString) : Prop := sub <:+: s

/-! ## net/url: escaping -/

/-- `shouldEscape(c, encodeQueryComponent)`: only the unreserved characters of
RFC 3986 §2.3 stay as they are. -/
def shouldEscape (c : Byte) : Bool :=
  if (chr 'a' ≤ c ∧ c ≤ chr 'z') ∨ (chr 'A' ≤ c ∧ c ≤ chr 'Z') ∨ (chr '0' ≤ c ∧ c ≤ chr '9') then false
  else if c = chr '-' ∨ c = chr '_' ∨ c = chr '.' ∨ c = chr '~' then false
  else true

/-- The table `upperhex = "0123456789ABCDEF"`, indexed by a nibble. -/
def upperhex (n : Nat) : Byte :=
  if n < 10 then Fin.ofNat (48 + n) else Fin.ofNat (55 + n)

/-- `url.QueryEscape`: `escape(s, encodeQueryComponent)`. -/
def QueryEscape : GoString → GoString
  | [] => []
  | c :: s =>
    if c = chr ' ' then chr '+' :: QueryEscape s
    else if shouldEscape c then chr '%' :: upperhex (c.val / 16) :: upperhex (c.val % 16) :: QueryEscape s
    else c :: QueryEscape s

/-- `ishex(c)`. -/
def ishex (c : Byte) : Bool :=
  (chr '0' ≤ c ∧ c ≤ chr '9') ∨ (chr 'a' ≤ c ∧ c ≤ chr 'f') ∨ (chr 'A' ≤ c ∧ c ≤ chr 'F')

/-- `unhex(c)`. -/
def unhex (c : Byte) : Nat :=
  if chr '0' ≤ c ∧ c ≤ chr '9' then c.val - 48
  else if chr 'a' ≤ c ∧ c ≤ chr 'f' then c.val - 97 + 10
  else if chr 'A' ≤ c ∧ c ≤ chr 'F' then c.val - 65 + 10
  else 0

/-- `url.QueryUnescape`: `unescape(s, encodeQueryComponent)`; `none` is the
`EscapeError` of a `%` that is not followed by two hex digits. -/
def QueryUnescape : GoString → Option GoString
  | [] => some []
  | c :: s =>
    if c = chr '%' then
      match s with
      | h1 :: h2 :: t =>
        if ishex h1 ∧ ishex h2 then
          (QueryUnescape t).map (fun r => Fin.ofNat (unhex h1 * 16 + unhex h2) :: r)
        else none
      | _ => none
    else if c = chr '+' then (QueryUnescape s).map (fun r => chr ' ' :: r)
    else (QueryUnescape s).map (fun r => c :: r)

/-! ## net/url: Values -/

/-- The type `url.Values`, `map[string][]string`: a finite map kept as an
association list with one entry per key.  Go leaves the iteration order of a map
open; the only iteration the program performs is the one of `Encode`, over the
sorted keys. -/
abbrev Values := List (GoString × List GoString)

/-- The slice `v[key]` (empty for a missing key). -/
def Values.get (v : Values) (key : GoString) : List GoString :=
  match v with
  | [] => []
  | (k, xs) :: rest => if k = key then xs else Values.get rest key

/-- `v.Add(key, value)`: `v[key] = append(v[key], value)`. -/
def Values.Add (v : Values) (key value : GoString) : Values :=
  match v with
  | [] => [(key, [value])]
  | (k, xs) :: rest =>
    if k = key then (k, xs ++ [value]) :: rest else (k, xs) :: Values.Add rest key value

/-- Insertion of a key into a sorted slice of keys. -/
def insertKey (k : GoString) : List GoString → List GoString
  | [] => [k]
  | x :: xs => if strLess x k then x :: insertKey k xs else k :: x :: xs

/-- `slices.Sort(keys)`: the keys in increasing order. -/
def sortKeys : List GoString → List GoString
  | [] => []
  | k :: ks => insertKey k (sortKeys ks)

/-- The `key=value` pairs `Encode` writes, in the order it writes them: keys
sorted, the values of one key in the order they were added. -/
def Values.sortedPairs (v : Values) : List (GoString × GoString) :=
  (sortKeys (v.map Prod.fst)).flatMap (fun k => (v.get k).map (fun x => (k, x)))

/-- The buffer `Encode` fills from the pairs: `&` between pairs, each one
`QueryEscape(key) = QueryEscape(value)`. -/
def encodePairs : List (GoString × GoString) → GoString
  | [] => []
  | [(k, x)] => QueryEscape k ++ chr '=' :: QueryEscape x
  | (k, x) :: p :: ps =>
    QueryEscape k ++ chr '=' :: QueryEscape x ++ chr '&' :: encodePairs (p :: ps)

/-- `v.Encode()`: the URL-encoded form, sorted by key. -/
def Values.Encode (v : Values) : GoString := encodePairs v.sortedPairs

/-- `strings.Cut(s, sep)` for a one-byte separator: the text before the first
`sep`, and the text after it when there is one. -/
def cut (sep : Byte) : GoString → GoString × Option GoString
  | [] => ([], none)
  | c :: s =>
    if c = sep then ([], some s)
    else ((cut sep s).1.cons c, (cut sep s).2)

/-- One round of the loop of `parseQuery` on the segment `key` that
`strings.Cut(query, "&")` cut off: a segment with a semicolon, an empty segment
and a segment that fails to unescape are skipped. -/
def parseSegment (m : Values) (seg : GoString) : Values :=
  if chr ';' ∈ seg then m
  else if seg = [] then m
  else
    match QueryUnescape (cut (chr '=') seg).1, QueryUnescape ((cut (chr '=') seg).2.getD []) with
    | some key, some value => m.Add key value
    | _, _ => m

/-- The loop `for query != ""` of `parseQuery`, with the number of rounds
bounded by `fuel`. -/
def parseQueryLoop : Nat → Values → GoString → Values
  | 0, m, _ => m
  | fuel + 1, m, query =>
    if query = [] then m
    else parseQueryLoop fuel (parseSegment m (cut (chr '&') query).1) ((cut (chr '&') query).2.getD [])

/-- `url.ParseQuery(query)` without its error result, which `URL.Query`
discards.  Every round removes at least one byte, so `length + 1` rounds are
enough. -/
def ParseQuery (query : GoString) : Values := parseQueryLoop (query.length + 1) [] query

/-! ## fmt.Sprint -/

/-- A `float64` value, identified by what `strconv` derives from it before it
formats: not-a-number, an infinity with its sign, or the sign with the shortest
decimal digits `d` that round-trip and the position `dp` of the decimal point
(the value is `0.d₀d₁… × 10^dp`; zero has no digits and `dp = 0`).  For
example `126.977969` is `finite false [1,2,6,9,7,7,9,6,9] 3`, and `2000` is
`finite false [2] 4`. -/
inductive Float64 where
  | nan
  | inf (neg : Bool)
  | finite (neg : Bool) (d : List (Fin 10)) (dp : Int)
deriving DecidableEq, Repr

/-- The zero value of `float64`. -/
def Float64.zero : Float64 := .finite false [] 0

/-- The byte `'0' + d` of a decimal digit. -/
def digitByte (d : Nat) : Byte := Fin.ofNat (48 + d)

/-- `strconv.fmtE`, `%e`: `-d.ddddde±dd`. -/
def fmtE (neg : Bool) (d : List (Fin 10)) (dp : Int) (prec : Int) : GoString :=
  let nd := d.length
  let sign := if neg then [chr '-'] else []
  let first := match d with
    | [] => chr '0'
    | x :: _ => digitByte x.val
  let m := min nd (prec + 1).toNat
  let more :=
    if prec > 0 then
      chr '.' :: ((d.take m).drop 1).map (fun x => digitByte x.val)
        ++ List.replicate (prec.toNat + 1 - max 1 m) (chr '0')
    else []
  let exp : Int := if nd = 0 then 0 else dp - 1
  let esign := if exp < 0 then chr '-' else chr '+'
  let e := exp.natAbs
  let edigits :=
    if e < 10 then [chr '0', digitByte e]
    else if e < 100 then [digitByte (e / 10), digitByte (e % 10)]
    else [digitByte (e / 100), digitByte (e / 10 % 10), digitByte (e % 10)]
  sign ++ first :: more ++ chr 'e' :: esign :: edigits

/-- `strconv.fmtF`, `%f`: `-ddddddd.ddddd`. -/
def fmtF (neg : Bool) (d : List (Fin 10)) (dp : Int) (prec : Int) : GoString :=
  let nd := d.length
  let sign := if neg then [chr '-'] else []
  let integer :=
    if dp > 0 then
      (d.take (min nd dp.toNat)).map (fun x => digitByte x.val)
        ++ List.replicate (dp.toNat - min nd dp.toNat) (chr '0')
    else [chr '0']
  let fraction :=
    if prec > 0 then
      chr '.' :: (List.range prec.toNat).map (fun i =>
        if 0 ≤ dp + i ∧ dp + i < nd then digitByte (d.getD (dp + i).toNat 0).val else chr '0')
    else []
  sign ++ integer ++ fraction

/-- The case `'g'` of `strconv.formatDigits` in shortest mode (`prec = nd`):
`%e` is used if the exponent is less than -4 or at least `eprec`, which is 6
for the shortest representation. -/
def fmtG (neg : Bool) (d : List (Fin 10)) (dp : Int) : GoString :=
  let eprec : Int := 6
  let exp := dp - 1
  if exp < -4 ∨ exp ≥ eprec then fmtE neg d dp ((d.length : Int) - 1)
  else fmtF neg d dp (max ((d.length : Int) - dp) 0)

/-- The verb `%v` on a `float64`: `strconv.AppendFloat(v, 'g', -1, 64)`, of
which `fmt` drops the plus sign of a finite number. -/
def Float64.format : Float64 → GoString
  | .nan => ascii "NaN"
  | .inf false => ascii "+Inf"
  | .inf true => ascii "-Inf"
  | .finite neg d dp => fmtG neg d dp

/-- The loop of `fmt.fmtInteger` in base 10, writing the digits of `u` in front
of `buf`; `fuel` bounds the number of rounds. -/
def fmtDecLoop : Nat → Nat → GoString → GoString
  | 0, u, buf => digitByte (u % 10) :: buf
  | fuel + 1, u, buf =>
    if u ≥ 10 then fmtDecLoop fuel (u / 10) (digitByte (u % 10) :: buf)
    else digitByte u :: buf

/-- The verb `%v` on an `int`: `fmtInteger` in base 10, a minus sign followed by
the digits of the magnitude.  The magnitude has at most `natAbs` digits. -/
def fmtInt (v : Int) : GoString :=
  (if v < 0 then [chr '-'] else []) ++ fmtDecLoop v.natAbs v.natAbs []

/-- The value `v.Field(i).Interface()` of a field of a parameter record: the
records have fields of three types. -/
inductive GoValue where
  | float64 (f : Float64)
  | int (n : Int)
  | string (s : GoString)
deriving DecidableEq

/-- `fmt.Sprint(a)` for one operand. -/
def Sprint : GoValue → GoString
  | .float64 f => f.format
  | .int n => fmtInt n
  | .string s => s

/-! ## The program -/

/-- ParamsList : 관광지 목록 조회 파라미터 -/
structure ParamsList where
  MapX : Float64
  MapY : Float64
  Radius : Float64
  ListYN : GoString
  Arrange : GoString
  NumOfRows : Int
  PageNo : Int
  MobileOS : GoString
  MobileApp : GoString
  DataType : GoString
deriving DecidableEq

/-- ParamsInfo : 관광지 정보 조회 파라미터 -/
structure ParamsInfo where
  ContentTypeID : GoString
  ContentID : GoString
  DefaultYN : GoString
  FirstImageYN : GoString
  AreaCodeYN : GoString
  CatCodeYN : GoString
  AddrInfoYN : GoString
  MapInfoYN : GoString
  OverViewYN : GoString
  MobileOS : GoString
  MobileApp : GoString
  DataType : GoString
deriving DecidableEq

/-- The composite literal `ParamsList{}`: every field has its zero value. -/
def ParamsList.empty : ParamsList :=
  { MapX := .zero, MapY := .zero, Radius := .zero, ListYN := [], Arrange := [],
    NumOfRows := 0, PageNo := 0, MobileOS := [], MobileApp := [], DataType := [] }

/-- The composite literal `ParamsInfo{}`. -/
def ParamsInfo.empty : ParamsInfo :=
  { ContentTypeID := [], ContentID := [], DefaultYN := [], FirstImageYN := [],
    AreaCodeYN := [], CatCodeYN := [], AddrInfoYN := [], MapInfoYN := [], OverViewYN := [],
    MobileOS := [], MobileApp := [], DataType := [] }

/-- The dynamic values the field `Parameters interface{}` holds in this
program: `nil`, a `ParamsList` or a `ParamsInfo`. -/
inductive Params where
  | nil
  | list (p : ParamsList)
  | info (p : ParamsInfo)
deriving DecidableEq

/-- The fields of `url.URL` the program uses, as `url.Parse` fills them for an
absolute URL without user, port, query or fragment. -/
structure URL where
  Scheme : GoString
  Host : GoString
  Path : GoString
  RawQuery : GoString
deriving DecidableEq

/-- `u.Query()`: `ParseQuery(u.RawQuery)` with the error dropped. -/
def URL.Query (u : URL) : Values := ParseQuery u.RawQuery

/-- `u.String()` for a URL with a scheme and a host whose host and path need
no escaping: `scheme://host/path?query`, the `?` only before a non-empty
query. -/
def URL.String (u : URL) : GoString :=
  u.Scheme ++ ascii "://" ++ u.Host ++ u.Path
    ++ (if u.RawQuery = [] then [] else chr '?' :: u.RawQuery)

/-- OpenAPI : 관광지 정보 조회 API 구조체 -/
structure OpenAPI where
  Uri : URL
  AuthKey : GoString
  Parameters : Params
deriving DecidableEq

/-- initParams : 관광지 정보 조회 파라미터 초기화.  The type switch has no
default case: for any other dynamic type `params` stays `nil`. -/
def OpenAPI.initParams (TourAPI : OpenAPI) : OpenAPI :=
  let params : Params :=
    match TourAPI.Parameters with
    | .list _ =>
      .list { ParamsList.empty with
        ListYN := ascii "Y", MobileOS := ascii "ETC", MobileApp := ascii "TourAPI3.0_Guide",
        Arrange := ascii "A" }
    | .info _ =>
      .info { ParamsInfo.empty with
        MobileOS := ascii "ETC", MobileApp := ascii "TourAPI3.0_Guide",
        DefaultYN := ascii "Y", FirstImageYN := ascii "Y", AreaCodeYN := ascii "Y",
        CatCodeYN := ascii "Y", AddrInfoYN := ascii "Y", MapInfoYN := ascii "Y",
        OverViewYN := ascii "Y" }
    | .nil => .nil
  { TourAPI with Parameters := params }

/-- What reflection sees of a `ParamsList`: for each field in declaration order,
`v.Type().Field(i).Tag.Get("json")` and `v.Field(i).Interface()`. -/
def ParamsList.fields (p : ParamsList) : List (GoString × GoValue) :=
  [ (ascii "mapX", .float64 p.MapX), (ascii "mapY", .float64 p.MapY),
    (ascii "radius", .float64 p.Radius), (ascii "listYN", .string p.ListYN),
    (ascii "arrange", .string p.Arrange), (ascii "numOfRows", .int p.NumOfRows),
    (ascii "pageNo", .int p.PageNo), (ascii "MobileOS", .string p.MobileOS),
    (ascii "MobileApp", .string p.MobileApp), (ascii "_type", .string p.DataType) ]

/-- What reflection sees of a `ParamsInfo`. -/
def ParamsInfo.fields (p : ParamsInfo) : List (GoString × GoValue) :=
  [ (ascii "contentTypeId", .string p.ContentTypeID), (ascii "contentId", .string p.ContentID),
    (ascii "defaultYN", .string p.DefaultYN), (ascii "firstImageYN", .string p.FirstImageYN),
    (ascii "areacodeYN", .string p.AreaCodeYN), (ascii "catcodeYN", .string p.CatCodeYN),
    (ascii "addrinfoYN", .string p.AddrInfoYN), (ascii "mapinfoYN", .string p.MapInfoYN),
    (ascii "overviewYN", .string p.OverViewYN), (ascii "MobileOS", .string p.MobileOS),
    (ascii "MobileApp", .string p.MobileApp), (ascii "_type", .string p.DataType) ]

/-- The fields of `reflect.ValueOf(TourAPI.Parameters)`; `none` for `nil`, on
which `NumField` panics. -/
def Params.fields : Params → Option (List (GoString × GoValue))
  | .nil => none
  | .list p => some p.fields
  | .info p => some p.fields

/-- The loop of `setParams`: `query.Add(tag, fmt.Sprint(value))` for each field
in turn. -/
def addFields (query : Values) : List (GoString × GoValue) → Values
  | [] => query
  | (tag, value) :: rest => addFields (query.Add tag (Sprint value)) rest

/-- setParams : 요청 파라미터 설정.  `none` is the panic of reflection on a
`nil` interface. -/
def OpenAPI.setParams (TourAPI : OpenAPI) : Option OpenAPI :=
  let query := TourAPI.Uri.Query
  let query := query.Add (ascii "ServiceKey") TourAPI.AuthKey
  match TourAPI.Parameters.fields with
  | none => none
  | some fs =>
    let query := addFields query fs
    some { TourAPI with Uri := { TourAPI.Uri with RawQuery := query.Encode } }

/-! ## The transport and the facades -/

/-- A Go `error` value of the I/O level (the transport's, or the one of reading
the body). -/
structure GoError where
  msg : GoString
deriving DecidableEq

/-- What the program uses of an `*http.Response`: the status code, which it
never reads, and what `io.ReadAll(resp.Body)` yields. -/
structure Response where
  StatusCode : Nat
  Body : Except GoError GoString

/-- A stubbed transport: what `http.Get(url)` yields for each URL. -/
abbrev Transport := GoString → Except GoError Response

/-- The observable state of a run: the URLs `http.Get` was called with and the
lines written to standard output, both in order. -/
structure World where
  requests : List GoString
  stdout : List GoString
deriving DecidableEq

/-- The state before the program starts. -/
def World.start : World := { requests := [], stdout := [] }

/-- `fmt.Println(s)`. -/
def World.Println (w : World) (s : GoString) : World :=
  { w with stdout := w.stdout ++ [s ++ [chr '\n']] }

/-- requestTourData : 관광지 요청 및 데이터 취득 -/
def OpenAPI.requestTourData (t : Transport) (TourAPI : OpenAPI) (w : World) :
    World × Except GoError GoString :=
  let w := { w with requests := w.requests ++ [TourAPI.Uri.String] }
  -- GET 호출
  match t TourAPI.Uri.String with
  | .error err => (w, .error err)
  | .ok resp =>
    -- 결과 취득
    match resp.Body with
    | .error err => (w, .error err)
    | .ok data => (w, .ok data)

/-- How a call that may panic ends. -/
inductive Result where
  | returned (data : GoString)
  | panicked (err : Option GoError)
deriving DecidableEq

/-- The result of `url.Parse` on the endpoint of `GetSightList`. -/
def listEndpoint : URL :=
  { Scheme := ascii "https", Host := ascii "api.visitkorea.or.kr",
    Path := ascii "/openapi/service/rest/KorService/locationBasedList", RawQuery := [] }

/-- The result of `url.Parse` on the endpoint of `GetSightInfo`. -/
def infoEndpoint : URL :=
  { Scheme := ascii "https", Host := ascii "api.visitkorea.or.kr",
    Path := ascii "/openapi/service/rest/KorService/detailCommon", RawQuery := [] }

/-- The `OpenAPI` value of `GetSightList` at the call of `requestTourData`:
the lines from `url.Parse` to `tourAPI.setParams()`. -/
def GetSightList.prepare (x y r : Float64) (format authKey : GoString) : Option OpenAPI :=
  let tourAPI : OpenAPI := { Uri := listEndpoint, AuthKey := [], Parameters := .nil }
  let tourAPI := { tourAPI with AuthKey := authKey }
  let tourAPI := { tourAPI with Parameters := .list ParamsList.empty }
  let tourAPI := tourAPI.initParams
  match tourAPI.Parameters with
  | .list params =>
    let params := { params with MapX := x }
    let params := { params with MapY := y }
    let params := { params with Radius := r }
    let params := { params with DataType := format }
    let params := { params with NumOfRows := 10 }
    let params := { params with PageNo := 1 }
    let tourAPI := { tourAPI with Parameters := .list params }
    tourAPI.setParams
  | _ => none

/-- GetSightList : 관광지 정보 조회

    x : 위도. latitude
    y : 경도. longitude
    r : 반경. radius
    format : 응답 형식. json, xml
    authKey : 인증키. https://www.data.go.kr -/
def GetSightList (t : Transport) (x y r : Float64) (format authKey : GoString) (w : World) :
    World × Result :=
  match GetSightList.prepare x y r format authKey with
  | none => (w, .panicked none)
  | some tourAPI =>
    match tourAPI.requestTourData t w with
    | (w, .error err) => (w, .panicked (some err))
    | (w, .ok data) => (w, .returned data)

/-- The `OpenAPI` value of `GetSightInfo` at the call of `requestTourData`. -/
def GetSightInfo.prepare (id typeid format authKey : GoString) : Option OpenAPI :=
  let tourAPI : OpenAPI := { Uri := infoEndpoint, AuthKey := [], Parameters := .nil }
  let tourAPI := { tourAPI with AuthKey := authKey }
  let tourAPI := { tourAPI with Parameters := .info ParamsInfo.empty }
  let tourAPI := tourAPI.initParams
  match tourAPI.Parameters with
  | .info params =>
    let params := { params with ContentTypeID := id }
    let params := { params with ContentID := typeid }
    let params := { params with DataType := format }
    let tourAPI := { tourAPI with Parameters := .info params }
    tourAPI.setParams
  | _ => none

/-- GetSightInfo : 관광지 정보 조회

    id : 콘텐츠 ID
    typeid : 콘텐츠 타입 ID
    format : 응답 형식. json, xml
    authKey : 인증키. https://www.data.go.kr -/
def GetSightInfo (t : Transport) (id typeid format authKey : GoString) (w : World) :
    World × Result :=
  match GetSightInfo.prepare id typeid format authKey with
  | none => (w, .panicked none)
  | some tourAPI =>
    match tourAPI.requestTourData t w with
    | (w, .error err) => (w, .panicked (some err))
    | (w, .ok data) => (w, .returned data)

/-- How the process ends: `os.Exit(code)`, a return from `main`, or a panic. -/
inductive Outcome where
  | exit (code : Nat)
  | done
  | panicked (err : Option GoError)
deriving DecidableEq

/-- The usage line of `main`. -/
def usage : GoString :=
  ascii "Usage : go run main.go [key] [format: json, xml. default: json]"

/-- The float constant `126.977969`. -/
def c126_977969 : Float64 := .finite false [1, 2, 6, 9, 7, 7, 9, 6, 9] 3

/-- The float constant `37.566535`. -/
def c37_566535 : Float64 := .finite false [3, 7, 5, 6, 6, 5, 3, 5] 2

/-- The float constant `2000`. -/
def c2000 : Float64 := .finite false [2] 4

/-- The function `main`; `args` is `os.Args`, the program name first. -/
def main (t : Transport) (args : List GoString) (w : World) : World × Outcome :=
  -- 인증키 - https://www.data.go.kr 에서 제공받은 인증키. 일반 인증키(Decoding) 사용
  if args.length > 1 then
    let authKey := args.getD 1 []
    let format := if args.length = 3 then args.getD 2 [] else ascii "json"
    match GetSightList t c126_977969 c37_566535 c2000 format authKey w with
    | (w, .panicked err) => (w, .panicked err)
    | (w, .returned data) =>
      let w := w.Println data
      match GetSightInfo t (ascii "14") (ascii "129898") format authKey w with
      | (w, .panicked err) => (w, .panicked err)
      | (w, .returned data) => (w.Println data, .done)
  else
    (w.Println usage, .exit 0)

/-! ## Decimal text -/

/-- A byte of a plain decimal numeral: a digit, the point or the minus sign. -/
def decimalByte (b : Byte) : Bool := (chr '0' ≤ b ∧ b ≤ chr '9') ∨ b = chr '.' ∨ b = chr '-'

/-- A text in plain decimal representation: digits, point and minus sign only,
so without an exponent part. -/
def decimalText (s : GoString) : Bool := s.all decimalByte

/-- The number a text of decimal digits stands for, continuing from `acc`. -/
def decimalValue (s : GoString) (acc : Nat) : Nat :=
  s.foldl (fun a b => 10 * a + (b.val - 48)) acc

/-! ## Vocabulary of the statements -/

/-- A byte that separates nothing in a query: not `&`, `=` or `;`. -/
def plainByte (b : Byte) : Bool := b ≠ chr '&' ∧ b ≠ chr '=' ∧ b ≠ chr ';'

/-- One encoded pair, `QueryEscape(key) = QueryEscape(value)`. -/
def encodePair (k x : GoString) : GoString := QueryEscape k ++ chr '=' :: QueryEscape x

/-- The key under which `setParams` adds the authentication key. -/
def serviceKey : GoString := ascii "ServiceKey"

/-- The `json` tags of `ParamsList`, in declaration order. -/
def ParamsList.tags : List GoString :=
  [ascii "mapX", ascii "mapY", ascii "radius", ascii "listYN", ascii "arrange", ascii "numOfRows",
   ascii "pageNo", ascii "MobileOS", ascii "MobileApp", ascii "_type"]

/-- The `json` tags of `ParamsInfo`, in declaration order. -/
def ParamsInfo.tags : List GoString :=
  [ascii "contentTypeId", ascii "contentId", ascii "defaultYN", ascii "firstImageYN",
   ascii "areacodeYN", ascii "catcodeYN", ascii "addrinfoYN", ascii "mapinfoYN",
   ascii "overviewYN", ascii "MobileOS", ascii "MobileApp", ascii "_type"]

/-- The map `setParams` encodes, for a URI without a query. -/
def builtQuery (authKey : GoString) (fs : List (GoString × GoValue)) : Values :=
  addFields (Values.Add [] serviceKey authKey) fs

/-- The URI `setParams` leaves behind: `u` with the encoded query. -/
def withQuery (u : URL) (authKey : GoString) (fs : List (GoString × GoValue)) : URL :=
  { u with RawQuery := (builtQuery authKey fs).Encode }

/-- The record `GetSightList` hands to `setParams`. -/
def listRecord (x y r : Float64) (format : GoString) : ParamsList :=
  { MapX := x, MapY := y, Radius := r, ListYN := ascii "Y", Arrange := ascii "A",
    NumOfRows := 10, PageNo := 1, MobileOS := ascii "ETC", MobileApp := ascii "TourAPI3.0_Guide",
    DataType := format }

/-- The record `GetSightInfo` hands to `setParams`, in terms of its two first
arguments in the order of the signature. -/
def infoRecord (id typeid format : GoString) : ParamsInfo :=
  { ContentTypeID := id, ContentID := typeid, DefaultYN := ascii "Y", FirstImageYN := ascii "Y",
    AreaCodeYN := ascii "Y", CatCodeYN := ascii "Y", AddrInfoYN := ascii "Y",
    MapInfoYN := ascii "Y", OverViewYN := ascii "Y", MobileOS := ascii "ETC",
    MobileApp := ascii "TourAPI3.0_Guide", DataType := format }

/-! ## Escaping round-trips -/

set_option maxRecDepth 100000 in
theorem hex_roundtrip : ∀ c : Byte,
    ishex (upperhex (c.val / 16)) = true ∧ ishex (upperhex (c.val % 16)) = true ∧
    (Fin.ofNat (unhex (upperhex (c.val / 16)) * 16 + unhex (upperhex (c.val % 16))) : Byte) = c := by
  decide

set_option maxRecDepth 100000 in
theorem hex_plain : ∀ c : Byte,
    plainByte (upperhex (c.val / 16)) = true ∧ plainByte (upperhex (c.val % 16)) = true := by
  decide

set_option maxRecDepth 100000 in
theorem unreserved_plain : ∀ c : Byte, shouldEscape c = false →
    plainByte c = true ∧ c ≠ chr '%' ∧ c ≠ chr '+' := by
  decide

theorem QueryUnescape_QueryEscape (s : GoString) : QueryUnescape (QueryEscape s) = some s := by
  induction s with
  | nil => rfl
  | cons c s ih =>
    unfold QueryEscape
    by_cases h1 : c = chr ' '
    · subst h1
      rw [if_pos rfl]
      unfold QueryUnescape
      rw [if_neg (by decide), if_pos rfl, ih]
      rfl
    · rw [if_neg h1]
      by_cases h2 : shouldEscape c = true
      · rw [if_pos h2]
        unfold QueryUnescape
        obtain ⟨a, b, e⟩ := hex_roundtrip c
        rw [if_pos rfl]
        simp only [a, b, and_self, if_true, ih, e, Option.map_some']
      · rw [if_neg h2]
        have h3 := unreserved_plain c (by simpa using h2)
        unfold QueryUnescape
        rw [if_neg h3.2.1, if_neg h3.2.2, ih]
        rfl

theorem QueryEscape_plain (s : GoString) : ∀ b ∈ QueryEscape s, plainByte b = true := by
  induction s with
  | nil => intro b hb; simp [QueryEscape] at hb
  | cons c s ih =>
    intro b hb
    unfold QueryEscape at hb
    by_cases h1 : c = chr ' '
    · rw [if_pos h1] at hb
      rcases List.mem_cons.1 hb with rfl | hb
      · decide
      · exact ih b hb
    · rw [if_neg h1] at hb
      by_cases h2 : shouldEscape c = true
      · rw [if_pos h2] at hb
        rcases List.mem_cons.1 hb with rfl | hb
        · decide
        rcases List.mem_cons.1 hb with rfl | hb
        · exact (hex_plain c).1
        rcases List.mem_cons.1 hb with rfl | hb
        · exact (hex_plain c).2
        exact ih b hb
      · rw [if_neg h2] at hb
        rcases List.mem_cons.1 hb with rfl | hb
        · exact (unreserved_plain b (by simpa using h2)).1
        · exact ih b hb

theorem cut_append (sep : Byte) (a b : GoString) (h : sep ∉ a) :
    cut sep (a ++ sep :: b) = (a, some b) := by
  induction a with
  | nil => simp [cut]
  | cons c a ih =>
    have hc : c ≠ sep := fun e => h (by simp [e])
    have ha : sep ∉ a := fun e => h (by simp [e])
    simp [cut, hc, ih ha]

theorem cut_none (sep : Byte) (a : GoString) (h : sep ∉ a) : cut sep a = (a, none) := by
  induction a with
  | nil => simp [cut]
  | cons c a ih =>
    have hc : c ≠ sep := fun e => h (by simp [e])
    have ha : sep ∉ a := fun e => h (by simp [e])
    simp [cut, hc, ih ha]

theorem encodePair_no_amp (k x : GoString) : chr '&' ∉ encodePair k x := by
  intro h
  rcases List.mem_append.1 h with h | h
  · exact absurd (QueryEscape_plain k _ h) (by decide)
  rcases List.mem_cons.1 h with h | h
  · exact absurd h (by decide)
  · exact absurd (QueryEscape_plain x _ h) (by decide)

theorem parseSegment_encodePair (m : Values) (k x : GoString) :
    parseSegment m (encodePair k x) = m.Add k x := by
  have hsemi : chr ';' ∉ encodePair k x := by
    intro h
    rcases List.mem_append.1 h with h | h
    · exact absurd (QueryEscape_plain k _ h) (by decide)
    rcases List.mem_cons.1 h with h | h
    · exact absurd h (by decide)
    · exact absurd (QueryEscape_plain x _ h) (by decide)
  have hne : encodePair k x ≠ [] := by simp [encodePair]
  have heq : chr '=' ∉ QueryEscape k := fun h => absurd (QueryEscape_plain k _ h) (by decide)
  have hcut : cut (chr '=') (encodePair k x) = (QueryEscape k, some (QueryEscape x)) :=
    cut_append _ _ _ heq
  unfold parseSegment
  rw [if_neg hsemi, if_neg hne, hcut]
  simp only [Option.getD_some, QueryUnescape_QueryEscape]

theorem parseQueryLoop_nil (fuel : Nat) (m : Values) : parseQueryLoop fuel m [] = m := by
  cases fuel <;> simp [parseQueryLoop]

theorem encodePairs_cons_cons (k x : GoString) (p : GoString × GoString)
    (ps : List (GoString × GoString)) :
    encodePairs ((k, x) :: p :: ps) = encodePair k x ++ chr '&' :: encodePairs (p :: ps) := by
  simp [encodePairs, encodePair]

theorem parseQueryLoop_encodePairs (ps : List (GoString × GoString)) :
    ∀ (m : Values) (fuel : Nat), ps.length < fuel →
      parseQueryLoop fuel m (encodePairs ps) = ps.foldl (fun (m : Values) p => m.Add p.1 p.2) m := by
  induction ps with
  | nil => intro m fuel _; exact parseQueryLoop_nil fuel m
  | cons p ps ih =>
    intro m fuel hf
    obtain ⟨k, x⟩ := p
    obtain ⟨fuel, rfl⟩ : ∃ f, fuel = f + 1 := ⟨fuel - 1, by omega⟩
    cases ps with
    | nil =>
      have hq : encodePairs [(k, x)] = encodePair k x := rfl
      have hne : encodePair k x ≠ [] := by simp [encodePair]
      rw [hq]
      unfold parseQueryLoop
      rw [if_neg hne, cut_none _ _ (encodePair_no_amp k x)]
      simp only [Option.getD_none, parseQueryLoop_nil, parseSegment_encodePair, List.foldl_cons,
        List.foldl_nil]
    | cons p' ps' =>
      rw [encodePairs_cons_cons]
      have hne : encodePair k x ++ chr '&' :: encodePairs (p' :: ps') ≠ [] := by simp [encodePair]
      unfold parseQueryLoop
      rw [if_neg hne, cut_append _ _ _ (encodePair_no_amp k x)]
      simp only [Option.getD_some, parseSegment_encodePair]
      rw [ih _ fuel (by simp at hf ⊢; omega)]
      rfl

theorem length_le_encodePairs (ps : List (GoString × GoString)) :
    ps.length ≤ (encodePairs ps).length := by
  induction ps with
  | nil => simp [encodePairs]
  | cons p ps ih =>
    obtain ⟨k, x⟩ := p
    cases ps with
    | nil => simp [encodePairs]; omega
    | cons p' ps' =>
      rw [encodePairs_cons_cons]
      simp only [List.length_append, List.length_cons] at ih ⊢
      omega

/-- Decoding what `Encode` wrote adds the written pairs, in order, to an empty
map. -/
theorem ParseQuery_encodePairs (ps : List (GoString × GoString)) :
    ParseQuery (encodePairs ps) = ps.foldl (fun (m : Values) p => m.Add p.1 p.2) [] :=
  parseQueryLoop_encodePairs ps [] _ (Nat.lt_succ_of_le (length_le_encodePairs ps))

theorem length_cut_snd (sep : Byte) (q : GoString) (h : q ≠ []) :
    ((cut sep q).2.getD []).length < q.length := by
  induction q with
  | nil => exact absurd rfl h
  | cons c q ih =>
    unfold cut
    by_cases hc : c = sep
    · rw [if_pos hc]
      simp
    · rw [if_neg hc]
      by_cases hq : q = []
      · subst hq
        simp [cut]
      · have := ih hq
        simp only [List.length_cons]
        omega

/-- The fuel of `ParseQuery` is enough: with more rounds allowed the loop of
`parseQuery` gives the same map. -/
theorem parseQueryLoop_fuel (n : Nat) :
    ∀ (q : GoString) (m : Values) (fuel : Nat), q.length ≤ n → q.length < fuel →
      parseQueryLoop fuel m q = parseQueryLoop (q.length + 1) m q := by
  induction n with
  | zero =>
    intro q m fuel hn _
    have hq : q = [] := List.length_eq_zero.1 (Nat.le_zero.1 hn)
    subst hq
    rw [parseQueryLoop_nil, parseQueryLoop_nil]
  | succ n ih =>
    intro q m fuel hn hf
    obtain ⟨fuel, rfl⟩ : ∃ f, fuel = f + 1 := ⟨fuel - 1, by omega⟩
    by_cases hq : q = []
    · subst hq
      rw [parseQueryLoop_nil, parseQueryLoop_nil]
    · have hlt := length_cut_snd (chr '&') q hq
      unfold parseQueryLoop
      rw [if_neg hq, if_neg hq]
      rw [ih _ _ fuel (by omega) (by omega), ih _ _ q.length (by omega) hlt]

/-! ## Maps -/

theorem get_Add (v : Values) (k x t : GoString) :
    (v.Add k x).get t = if k = t then v.get t ++ [x] else v.get t := by
  induction v with
  | nil => by_cases h : k = t <;> simp [Values.Add, Values.get, h]
  | cons e v ih =>
    obtain ⟨k', xs⟩ := e
    by_cases h1 : k' = k
    · subst h1
      by_cases h2 : k' = t <;> simp [Values.Add, Values.get, h2]
    · by_cases h2 : k' = t
      · subst h2
        have : ¬ k = k' := fun e => h1 e.symm
        simp [Values.Add, Values.get, h1, this]
      · simp [Values.Add, Values.get, h1, h2, ih]

theorem get_foldl_Add (ps : List (GoString × GoString)) (t : GoString) :
    ∀ m : Values, (ps.foldl (fun (m : Values) p => m.Add p.1 p.2) m).get t
      = m.get t ++ (ps.filter (fun p => p.1 = t)).map Prod.snd := by
  induction ps with
  | nil => intro m; simp
  | cons p ps ih =>
    intro m
    rw [List.foldl_cons, ih, get_Add]
    by_cases h : p.1 = t <;> simp [h, List.filter_cons]

theorem get_of_not_mem (v : Values) (t : GoString) (h : t ∉ v.map Prod.fst) : v.get t = [] := by
  induction v with
  | nil => rfl
  | cons e v ih =>
    obtain ⟨k, xs⟩ := e
    have h1 : k ≠ t := fun e => h (by simp [e])
    have h2 : t ∉ v.map Prod.fst := fun e => h (by simp at e ⊢; exact Or.inr e)
    simp [Values.get, h1, ih h2]

theorem insertKey_perm (k : GoString) (ks : List GoString) : (insertKey k ks).Perm (k :: ks) := by
  induction ks with
  | nil => exact List.Perm.refl _
  | cons x xs ih =>
    unfold insertKey
    by_cases h : strLess x k = true
    · rw [if_pos h]
      exact (List.Perm.cons x ih).trans (List.Perm.swap k x xs)
    · rw [if_neg h]

theorem sortKeys_perm (ks : List GoString) : (sortKeys ks).Perm ks := by
  induction ks with
  | nil => exact List.Perm.refl _
  | cons k ks ih => exact (insertKey_perm k _).trans (List.Perm.cons k ih)

theorem strLess_asymm : ∀ a b : GoString, strLess a b = true → strLess b a = false
  | [], [], h => by simp [strLess] at h
  | [], _ :: _, _ => by simp [strLess]
  | _ :: _, [], h => by simp [strLess] at h
  | x :: as, y :: bs, h => by
    simp only [strLess] at h ⊢
    by_cases h1 : x < y
    · have h2 : ¬ y < x := not_lt.2 (le_of_lt h1)
      simp [h1, h2]
    · by_cases h2 : y < x
      · simp [h1, h2] at h
      · simp only [h1, h2, if_false] at h ⊢
        exact strLess_asymm as bs h

theorem strLess_le_trans : ∀ a b c : GoString,
    strLess b a = false → strLess c b = false → strLess c a = false
  | [], _, [], _, _ => by simp [strLess]
  | [], _, _ :: _, _, _ => by simp [strLess]
  | _ :: _, [], _, h1, _ => by simp [strLess] at h1
  | _ :: _, _ :: _, [], _, h2 => by simp [strLess] at h2
  | x :: as, y :: bs, z :: cs, h1, h2 => by
    simp only [strLess] at h1 h2 ⊢
    by_cases hyx : y < x
    · simp [hyx] at h1
    by_cases hzy : z < y
    · simp [hzy] at h2
    simp only [hyx, hzy, if_false] at h1 h2
    have hzx : ¬ z < x := fun h => hzy (lt_of_lt_of_le h (not_lt.1 hyx))
    simp only [hzx, if_false]
    by_cases hxy : x < y
    · have : x < z := lt_of_lt_of_le hxy (not_lt.1 hzy)
      simp [this]
    · by_cases hyz : y < z
      · have : x < z := lt_of_le_of_lt (not_lt.1 hyx) hyz
        simp [this]
      · simp only [hxy, hyz, if_false] at h1 h2
        have hxz : ¬ x < z := fun h => hxy (lt_of_lt_of_le h (not_lt.1 hyz))
        simp only [hxz, if_false]
        exact strLess_le_trans as bs cs h1 h2

theorem insertKey_sorted (k : GoString) (ks : List GoString)
    (h : ks.Pairwise (fun a b => strLess b a = false)) :
    (insertKey k ks).Pairwise (fun a b => strLess b a = false) := by
  induction ks with
  | nil => simp [insertKey]
  | cons x xs ih =>
    obtain ⟨hx, hxs⟩ := List.pairwise_cons.1 h
    unfold insertKey
    by_cases hlt : strLess x k = true
    · rw [if_pos hlt]
      refine List.pairwise_cons.2 ⟨?_, ih hxs⟩
      intro b hb
      rcases List.mem_cons.1 ((insertKey_perm k xs).mem_iff.1 hb) with rfl | hb
      · exact strLess_asymm _ _ hlt
      · exact hx b hb
    · rw [if_neg hlt]
      have hkx : strLess x k = false := by simpa using hlt
      refine List.pairwise_cons.2 ⟨?_, h⟩
      intro b hb
      rcases List.mem_cons.1 hb with rfl | hb
      · exact hkx
      · exact strLess_le_trans k x b hkx (hx b hb)

/-- The model of `slices.Sort` sorts: in its result no key is less than a key
before it (and by `sortKeys_perm` it holds the same keys). -/
theorem sortKeys_sorted (ks : List GoString) :
    (sortKeys ks).Pairwise (fun a b => strLess b a = false) := by
  induction ks with
  | nil => exact List.Pairwise.nil
  | cons k ks ih => exact insertKey_sorted k _ ih

theorem filter_pairs (v : Values) (t : GoString) (ks : List GoString) (hnd : ks.Nodup) :
    ((ks.flatMap (fun k => (v.get k).map (fun x => (k, x)))).filter (fun p => p.1 = t)).map Prod.snd
      = if t ∈ ks then v.get t else [] := by
  induction ks with
  | nil => simp
  | cons k ks ih =>
    have hk : k ∉ ks := (List.nodup_cons.1 hnd).1
    rw [List.flatMap_cons, List.filter_append, List.map_append, ih (List.nodup_cons.1 hnd).2]
    by_cases h : k = t
    · subst h
      have : (List.filter (fun p => decide (p.1 = k)) (List.map (fun x => (k, x)) (v.get k)))
          = List.map (fun x => (k, x)) (v.get k) := by
        apply List.filter_eq_self.2
        intro a ha
        obtain ⟨x, _, rfl⟩ := List.mem_map.1 ha
        simp
      simp [this, hk, Function.comp_def]
    · have : (List.filter (fun p => decide (p.1 = t)) (List.map (fun x => (k, x)) (v.get k))) = [] := by
        apply List.filter_eq_nil_iff.2
        intro a ha
        obtain ⟨x, _, rfl⟩ := List.mem_map.1 ha
        simp [h]
      have ht : t ≠ k := fun e => h e.symm
      simp [this, ht]

/-- Decoding the encoded form of a map gives back, under every key, the values
the map holds under it. -/
theorem ParseQuery_Encode_get (v : Values) (hnd : (v.map Prod.fst).Nodup) (t : GoString) :
    (ParseQuery v.Encode).get t = v.get t := by
  unfold Values.Encode Values.sortedPairs
  rw [ParseQuery_encodePairs, get_foldl_Add]
  have hp := sortKeys_perm (v.map Prod.fst)
  rw [filter_pairs v t _ (hp.nodup_iff.2 hnd)]
  by_cases h : t ∈ sortKeys (v.map Prod.fst)
  · simp [h, Values.get]
  · have h2 : t ∉ v.map Prod.fst := fun e => h (hp.mem_iff.2 e)
    simp [h, Values.get, get_of_not_mem v t h2]

theorem keys_Add (v : Values) (k x : GoString) :
    (v.Add k x).map Prod.fst = if k ∈ v.map Prod.fst then v.map Prod.fst else v.map Prod.fst ++ [k] := by
  induction v with
  | nil => simp [Values.Add]
  | cons e v ih =>
    obtain ⟨k', xs⟩ := e
    by_cases h1 : k' = k
    · subst h1; simp [Values.Add]
    · have h2 : ¬ k = k' := fun e => h1 e.symm
      by_cases h3 : k ∈ v.map Prod.fst
      · simp only [Values.Add, h1, if_false, List.map_cons, ih, h3, if_true]
        simp [h3]
      · simp only [Values.Add, h1, if_false, List.map_cons, ih, h3]
        simp [h2, h3]

theorem nodup_Add (v : Values) (k x : GoString) (h : (v.map Prod.fst).Nodup) :
    ((v.Add k x).map Prod.fst).Nodup := by
  rw [keys_Add]
  by_cases hk : k ∈ v.map Prod.fst
  · rw [if_pos hk]; exact h
  · rw [if_neg hk]
    exact List.nodup_append.2 ⟨h, List.nodup_singleton k, by
      intro a ha hb
      rw [List.mem_singleton] at hb
      exact hk (hb ▸ ha)⟩

theorem nodup_addFields (fs : List (GoString × GoValue)) :
    ∀ v : Values, (v.map Prod.fst).Nodup → ((addFields v fs).map Prod.fst).Nodup := by
  induction fs with
  | nil => intro v h; exact h
  | cons f fs ih =>
    intro v h
    obtain ⟨tag, value⟩ := f
    exact ih _ (nodup_Add v tag _ h)

theorem get_addFields (fs : List (GoString × GoValue)) (t : GoString) :
    ∀ v : Values, (addFields v fs).get t
      = v.get t ++ (fs.filter (fun f => f.1 = t)).map (fun f => Sprint f.2) := by
  induction fs with
  | nil => intro v; simp [addFields]
  | cons f fs ih =>
    intro v
    obtain ⟨tag, value⟩ := f
    rw [addFields, ih, get_Add]
    by_cases h : tag = t <;> simp [h, List.filter_cons]

/-! ## The query `setParams` builds -/

theorem list_fields_tags (p : ParamsList) : p.fields.map Prod.fst = ParamsList.tags := rfl

theorem info_fields_tags (p : ParamsInfo) : p.fields.map Prod.fst = ParamsInfo.tags := rfl

theorem tags_nodup (params : Params) (fs : List (GoString × GoValue))
    (hf : params.fields = some fs) :
    (fs.map Prod.fst).Nodup ∧ serviceKey ∉ fs.map Prod.fst := by
  cases params with
  | nil => simp [Params.fields] at hf
  | list p =>
    simp only [Params.fields, Option.some.injEq] at hf
    subst hf
    rw [list_fields_tags]
    exact ⟨by decide, by decide⟩
  | info p =>
    simp only [Params.fields, Option.some.injEq] at hf
    subst hf
    rw [info_fields_tags]
    exact ⟨by decide, by decide⟩

theorem setParams_eq (u : URL) (authKey : GoString) (params : Params)
    (fs : List (GoString × GoValue)) (hq : u.RawQuery = []) (hf : params.fields = some fs) :
    OpenAPI.setParams { Uri := u, AuthKey := authKey, Parameters := params }
      = some { Uri := withQuery u authKey fs, AuthKey := authKey, Parameters := params } := by
  simp [OpenAPI.setParams, URL.Query, hq, hf, ParseQuery, parseQueryLoop, builtQuery, serviceKey,
    withQuery]

/-- The decoded query after `setParams`: under every key, the authentication
key when the key is `ServiceKey`, followed by the text of the fields declared
under that key. -/
theorem builtQuery_get (authKey : GoString) (fs : List (GoString × GoValue)) (t : GoString) :
    (ParseQuery (builtQuery authKey fs).Encode).get t
      = (if serviceKey = t then [authKey] else [])
          ++ (fs.filter (fun f => f.1 = t)).map (fun f => Sprint f.2) := by
  have hnd : ((builtQuery authKey fs).map Prod.fst).Nodup :=
    nodup_addFields fs _ (by simp [Values.Add])
  rw [ParseQuery_Encode_get _ hnd, builtQuery, get_addFields, get_Add]
  by_cases h : serviceKey = t <;> simp [h, Values.get]

theorem filter_unique (fs : List (GoString × GoValue)) (tag : GoString) (value : GoValue)
    (hnd : (fs.map Prod.fst).Nodup) (hm : (tag, value) ∈ fs) :
    (fs.filter (fun f => f.1 = tag)).map (fun f => Sprint f.2) = [Sprint value] := by
  induction fs with
  | nil => simp at hm
  | cons f fs ih =>
    obtain ⟨k, x⟩ := f
    simp only [List.map_cons, List.nodup_cons] at hnd
    rcases List.mem_cons.1 hm with h | h
    · obtain ⟨rfl, rfl⟩ := Prod.mk.inj h
      have : List.filter (fun f => decide (f.1 = tag)) fs = [] := by
        apply List.filter_eq_nil_iff.2
        intro a ha hta
        exact hnd.1 (List.mem_map.2 ⟨a, ha, by simpa using hta⟩)
      simp [List.filter_cons, this]
    · have hk : k ≠ tag := by
        intro e
        subst e
        exact hnd.1 (List.mem_map.2 ⟨(k, value), h, rfl⟩)
      simp [List.filter_cons, hk, ih hnd.2 h]

theorem builtQuery_field (authKey : GoString) (params : Params) (fs : List (GoString × GoValue))
    (hf : params.fields = some fs) (tag : GoString) (value : GoValue) (hm : (tag, value) ∈ fs) :
    (ParseQuery (builtQuery authKey fs).Encode).get tag = [Sprint value] := by
  obtain ⟨hnd, hsk⟩ := tags_nodup params fs hf
  have hne : serviceKey ≠ tag := by
    intro e
    exact hsk (e ▸ List.mem_map.2 ⟨(tag, value), hm, rfl⟩)
  rw [builtQuery_get, if_neg hne, filter_unique fs tag value hnd hm]
  rfl

theorem builtQuery_serviceKey (authKey : GoString) (params : Params)
    (fs : List (GoString × GoValue)) (hf : params.fields = some fs) :
    (ParseQuery (builtQuery authKey fs).Encode).get serviceKey = [authKey] := by
  obtain ⟨_, hsk⟩ := tags_nodup params fs hf
  have : List.filter (fun f => decide (f.1 = serviceKey)) fs = [] := by
    apply List.filter_eq_nil_iff.2
    intro a ha hta
    exact hsk (List.mem_map.2 ⟨a, ha, by simpa using hta⟩)
  rw [builtQuery_get, if_pos rfl, this]
  rfl

theorem prepare_list_eq (x y r : Float64) (format authKey : GoString) :
    GetSightList.prepare x y r format authKey
      = some { Uri := withQuery listEndpoint authKey (listRecord x y r format).fields,
               AuthKey := authKey, Parameters := .list (listRecord x y r format) } :=
  setParams_eq listEndpoint authKey (.list (listRecord x y r format)) _ rfl rfl

theorem prepare_info_eq (id typeid format authKey : GoString) :
    GetSightInfo.prepare id typeid format authKey
      = some { Uri := withQuery infoEndpoint authKey (infoRecord id typeid format).fields,
               AuthKey := authKey, Parameters := .info (infoRecord id typeid format) } :=
  setParams_eq infoEndpoint authKey (.info (infoRecord id typeid format)) _ rfl rfl

theorem encodePair_infix (ps : List (GoString × GoString)) (k x : GoString)
    (h : (k, x) ∈ ps) : Contains (encodePairs ps) (encodePair k x) := by
  induction ps with
  | nil => simp at h
  | cons p ps ih =>
    obtain ⟨k', x'⟩ := p
    cases ps with
    | nil =>
      simp only [List.mem_singleton, Prod.mk.injEq] at h
      obtain ⟨rfl, rfl⟩ := h
      exact List.infix_refl _
    | cons p' ps' =>
      rw [encodePairs_cons_cons]
      rcases List.mem_cons.1 h with h | h
      · obtain ⟨rfl, rfl⟩ := Prod.mk.inj h
        exact (List.prefix_append _ _).isInfix
      · exact List.IsInfix.trans (ih h)
          ((List.suffix_cons _ _).isInfix.trans (List.suffix_append _ _).isInfix)

theorem mem_sortedPairs (v : Values) (k x : GoString) (h : x ∈ v.get k) :
    (k, x) ∈ v.sortedPairs := by
  have hk : k ∈ v.map Prod.fst := by
    by_contra hk
    rw [get_of_not_mem v k hk] at h
    simp at h
  unfold Values.sortedPairs
  exact List.mem_flatMap.2 ⟨k, (sortKeys_perm _).mem_iff.2 hk, List.mem_map.2 ⟨x, h, rfl⟩⟩

/-- The text of the query contains, for every field of the record, the escaped
tag, `=` and the escaped text of the field. -/
theorem builtQuery_contains (authKey : GoString) (fs : List (GoString × GoValue))
    (tag : GoString) (value : GoValue) (hm : (tag, value) ∈ fs) :
    Contains (builtQuery authKey fs).Encode (encodePair tag (Sprint value)) := by
  apply encodePair_infix
  apply mem_sortedPairs
  rw [builtQuery, get_addFields]
  apply List.mem_append_right
  exact List.mem_map.2 ⟨(tag, value), List.mem_filter.2 ⟨hm, by simp⟩, rfl⟩

/-- The text of the query contains `ServiceKey=` followed by the escaped
authentication key. -/
theorem builtQuery_contains_key (authKey : GoString) (fs : List (GoString × GoValue)) :
    Contains (builtQuery authKey fs).Encode (encodePair serviceKey authKey) := by
  apply encodePair_infix
  apply mem_sortedPairs
  rw [builtQuery, get_addFields, get_Add, if_pos rfl]
  simp [Values.get]

theorem requestTourData_fst (t : Transport) (api : OpenAPI) (w : World) :
    (api.requestTourData t w).1 = { w with requests := w.requests ++ [api.Uri.String] } := by
  unfold OpenAPI.requestTourData
  split
  · rfl
  · split <;> rfl

theorem requestTourData_snd (t : Transport) (api : OpenAPI) (w : World) :
    (api.requestTourData t w).2 = (t api.Uri.String).bind (fun resp => resp.Body) := by
  unfold OpenAPI.requestTourData
  split
  · next err h => rw [h]; rfl
  · next resp h =>
    rw [h]
    split
    · next err hb => simp only [Except.bind, hb]
    · next data hb => simp only [Except.bind, hb]

theorem GetSightList_eq (t : Transport) (x y r : Float64) (format authKey : GoString)
    (w : World) (api : OpenAPI) (h : GetSightList.prepare x y r format authKey = some api) :
    GetSightList t x y r format authKey w
      = ((api.requestTourData t w).1,
          match (api.requestTourData t w).2 with
          | .error err => .panicked (some err)
          | .ok data => .returned data) := by
  unfold GetSightList
  rw [h]
  dsimp only
  generalize api.requestTourData t w = res
  rcases res with ⟨w1, e | d⟩ <;> rfl

theorem GetSightInfo_eq (t : Transport) (id typeid format authKey : GoString)
    (w : World) (api : OpenAPI) (h : GetSightInfo.prepare id typeid format authKey = some api) :
    GetSightInfo t id typeid format authKey w
      = ((api.requestTourData t w).1,
          match (api.requestTourData t w).2 with
          | .error err => .panicked (some err)
          | .ok data => .returned data) := by
  unfold GetSightInfo
  rw [h]
  dsimp only
  generalize api.requestTourData t w = res
  rcases res with ⟨w1, e | d⟩ <;> rfl

theorem requests_GetSightList (t : Transport) (x y r : Float64) (format authKey : GoString)
    (w : World) (api : OpenAPI) (h : GetSightList.prepare x y r format authKey = some api) :
    (GetSightList t x y r format authKey w).1.requests = w.requests ++ [api.Uri.String] := by
  rw [GetSightList_eq t x y r format authKey w api h, requestTourData_fst]

theorem requests_GetSightInfo (t : Transport) (id typeid format authKey : GoString)
    (w : World) (api : OpenAPI) (h : GetSightInfo.prepare id typeid format authKey = some api) :
    (GetSightInfo t id typeid format authKey w).1.requests = w.requests ++ [api.Uri.String] := by
  rw [GetSightInfo_eq t id typeid format authKey w api h, requestTourData_fst]

theorem withQuery_field (u : URL) (authKey : GoString) (params : Params)
    (fs : List (GoString × GoValue)) (hf : params.fields = some fs) (tag : GoString)
    (value : GoValue) (hm : (tag, value) ∈ fs) :
    (withQuery u authKey fs).Query.get tag = [Sprint value] :=
  builtQuery_field authKey params fs hf tag value hm

theorem withQuery_serviceKey (u : URL) (authKey : GoString) (params : Params)
    (fs : List (GoString × GoValue)) (hf : params.fields = some fs) :
    (withQuery u authKey fs).Query.get serviceKey = [authKey] :=
  builtQuery_serviceKey authKey params fs hf

theorem listQuery_field (x y r : Float64) (format authKey tag : GoString) (value : GoValue)
    (hm : (tag, value) ∈ (listRecord x y r format).fields) :
    (withQuery listEndpoint authKey (listRecord x y r format).fields).Query.get tag
      = [Sprint value] :=
  withQuery_field listEndpoint authKey (.list (listRecord x y r format)) _ rfl tag value hm

theorem infoQuery_field (id typeid format authKey tag : GoString) (value : GoValue)
    (hm : (tag, value) ∈ (infoRecord id typeid format).fields) :
    (withQuery infoEndpoint authKey (infoRecord id typeid format).fields).Query.get tag
      = [Sprint value] :=
  withQuery_field infoEndpoint authKey (.info (infoRecord id typeid format)) _ rfl tag value hm

theorem withQuery_contains (u : URL) (authKey : GoString) (fs : List (GoString × GoValue))
    (tag : GoString) (value : GoValue) (hm : (tag, value) ∈ fs) :
    Contains (withQuery u authKey fs).RawQuery (encodePair tag (Sprint value)) :=
  builtQuery_contains authKey fs tag value hm

theorem listQuery_contains (x y r : Float64) (format authKey tag : GoString) (value : GoValue)
    (hm : (tag, value) ∈ (listRecord x y r format).fields) :
    Contains (withQuery listEndpoint authKey (listRecord x y r format).fields).RawQuery
      (encodePair tag (Sprint value)) :=
  withQuery_contains listEndpoint authKey _ tag value hm

theorem infoQuery_contains (id typeid format authKey tag : GoString) (value : GoValue)
    (hm : (tag, value) ∈ (infoRecord id typeid format).fields) :
    Contains (withQuery infoEndpoint authKey (infoRecord id typeid format).fields).RawQuery
      (encodePair tag (Sprint value)) :=
  withQuery_contains infoEndpoint authKey _ tag value hm

/-! ## The claims -/

/-- C6: whatever `ParamsList` the field `Parameters` holds, after `initParams`
it holds a `ParamsList` with `ListYN = "Y"`, `Arrange = "A"`, `MobileOS = "ETC"`
and `MobileApp = "TourAPI3.0_Guide"`; `GetSightList` leaves these four fields as
they are, and its query holds them under `listYN`, `arrange`, `MobileOS` and
`MobileApp`, once each. -/
theorem initParams_list_defaults (api : OpenAPI) (p : ParamsList) :
    (∃ q : ParamsList,
      ({ api with Parameters := .list p } : OpenAPI).initParams.Parameters = .list q ∧
      q.ListYN = ascii "Y" ∧ q.Arrange = ascii "A" ∧ q.MobileOS = ascii "ETC" ∧
      q.MobileApp = ascii "TourAPI3.0_Guide") ∧
    ∀ (x y r : Float64) (format authKey : GoString),
      ∃ req : OpenAPI, GetSightList.prepare x y r format authKey = some req ∧
        req.Uri.Query.get (ascii "listYN") = [ascii "Y"] ∧
        req.Uri.Query.get (ascii "arrange") = [ascii "A"] ∧
        req.Uri.Query.get (ascii "MobileOS") = [ascii "ETC"] ∧
        req.Uri.Query.get (ascii "MobileApp") = [ascii "TourAPI3.0_Guide"] := by
  refine ⟨⟨_, rfl, rfl, rfl, rfl, rfl⟩, ?_⟩
  intro x y r format authKey
  refine ⟨_, prepare_list_eq x y r format authKey, ?_, ?_, ?_, ?_⟩
  · exact listQuery_field x y r format authKey _ (.string (ascii "Y"))
      (by simp [ParamsList.fields, listRecord])
  · exact listQuery_field x y r format authKey _ (.string (ascii "A"))
      (by simp [ParamsList.fields, listRecord])
  · exact listQuery_field x y r format authKey _ (.string (ascii "ETC"))
      (by simp [ParamsList.fields, listRecord])
  · exact listQuery_field x y r format authKey _ (.string (ascii "TourAPI3.0_Guide"))
      (by simp [ParamsList.fields, listRecord])

/-- C7: whatever `ParamsInfo` the field `Parameters` holds, after `initParams`
it holds a `ParamsInfo` whose seven inclusion flags `DefaultYN`, `FirstImageYN`,
`AreaCodeYN`, `CatCodeYN`, `AddrInfoYN`, `MapInfoYN` and `OverViewYN` are all
`"Y"`. -/
theorem initParams_info_defaults (api : OpenAPI) (p : ParamsInfo) :
    ∃ q : ParamsInfo,
      ({ api with Parameters := .info p } : OpenAPI).initParams.Parameters = .info q ∧
      q.DefaultYN = ascii "Y" ∧ q.FirstImageYN = ascii "Y" ∧ q.AreaCodeYN = ascii "Y" ∧
      q.CatCodeYN = ascii "Y" ∧ q.AddrInfoYN = ascii "Y" ∧ q.MapInfoYN = ascii "Y" ∧
      q.OverViewYN = ascii "Y" :=
  ⟨_, rfl, rfl, rfl, rfl, rfl, rfl, rfl, rfl⟩

/-- C4: for a URI whose query is empty, every authentication key and every
parameter record (`ParamsList` or `ParamsInfo`), `setParams` succeeds, and in
the query string it stores, decoded as `url.ParseQuery` decodes it, every
declared `json` tag is a key with exactly one value, the `fmt.Sprint` text of its
field. -/
theorem setParams_declared_fields (u : URL) (authKey : GoString) (hq : u.RawQuery = []) :
    (∀ p : ParamsList, ∃ req : OpenAPI,
      OpenAPI.setParams { Uri := u, AuthKey := authKey, Parameters := .list p } = some req ∧
      ∀ tag value, (tag, value) ∈ p.fields → req.Uri.Query.get tag = [Sprint value]) ∧
    (∀ p : ParamsInfo, ∃ req : OpenAPI,
      OpenAPI.setParams { Uri := u, AuthKey := authKey, Parameters := .info p } = some req ∧
      ∀ tag value, (tag, value) ∈ p.fields → req.Uri.Query.get tag = [Sprint value]) := by
  constructor
  · intro p
    refine ⟨_, setParams_eq u authKey (.list p) p.fields hq rfl, ?_⟩
    intro tag value hm
    exact withQuery_field u authKey (.list p) _ rfl tag value hm
  · intro p
    refine ⟨_, setParams_eq u authKey (.info p) p.fields hq rfl, ?_⟩
    intro tag value hm
    exact withQuery_field u authKey (.info p) _ rfl tag value hm

/-- C4 at the endpoint of `GetSightList` with the key `k`. -/
theorem setParams_declared_fields_witness :
    listEndpoint.RawQuery = [] ∧
    ((∀ p : ParamsList, ∃ req : OpenAPI,
      OpenAPI.setParams { Uri := listEndpoint, AuthKey := ascii "k", Parameters := .list p }
        = some req ∧
      ∀ tag value, (tag, value) ∈ p.fields → req.Uri.Query.get tag = [Sprint value]) ∧
    (∀ p : ParamsInfo, ∃ req : OpenAPI,
      OpenAPI.setParams { Uri := listEndpoint, AuthKey := ascii "k", Parameters := .info p }
        = some req ∧
      ∀ tag value, (tag, value) ∈ p.fields → req.Uri.Query.get tag = [Sprint value])) :=
  ⟨rfl, setParams_declared_fields listEndpoint (ascii "k") rfl⟩

/-- C3: `GetSightInfo` called with a content-type id `t` first and a content id
`c` second builds a query that holds, once each, `contentTypeId` with the value
`t`, `contentId` with the value `c`, each of the seven inclusion flags with the
value `Y`, and `_type` with the value `format`; the text of the query contains
`contentTypeId=` and `contentId=` followed by the escaped `t` and `c`; and this is
the query of the URL the call requests. -/
theorem GetSightInfo_query (t c format authKey : GoString) :
    ∃ req : OpenAPI, GetSightInfo.prepare t c format authKey = some req ∧
      req.Uri.Query.get (ascii "contentTypeId") = [t] ∧
      req.Uri.Query.get (ascii "contentId") = [c] ∧
      req.Uri.Query.get (ascii "defaultYN") = [ascii "Y"] ∧
      req.Uri.Query.get (ascii "firstImageYN") = [ascii "Y"] ∧
      req.Uri.Query.get (ascii "areacodeYN") = [ascii "Y"] ∧
      req.Uri.Query.get (ascii "catcodeYN") = [ascii "Y"] ∧
      req.Uri.Query.get (ascii "addrinfoYN") = [ascii "Y"] ∧
      req.Uri.Query.get (ascii "mapinfoYN") = [ascii "Y"] ∧
      req.Uri.Query.get (ascii "overviewYN") = [ascii "Y"] ∧
      req.Uri.Query.get (ascii "_type") = [format] ∧
      Contains req.Uri.RawQuery (ascii "contentTypeId=" ++ QueryEscape t) ∧
      Contains req.Uri.RawQuery (ascii "contentId=" ++ QueryEscape c) ∧
      ∀ (tr : Transport) (w : World),
        (GetSightInfo tr t c format authKey w).1.requests = w.requests ++ [req.Uri.String] := by
  have e1 : ascii "contentTypeId=" ++ QueryEscape t = encodePair (ascii "contentTypeId") t := by
    have : QueryEscape (ascii "contentTypeId") ++ [chr '='] = ascii "contentTypeId=" := by decide
    rw [← this, encodePair]
    simp
  have e2 : ascii "contentId=" ++ QueryEscape c = encodePair (ascii "contentId") c := by
    have : QueryEscape (ascii "contentId") ++ [chr '='] = ascii "contentId=" := by decide
    rw [← this, encodePair]
    simp
  refine ⟨_, prepare_info_eq t c format authKey, ?_, ?_, ?_, ?_, ?_, ?_, ?_, ?_, ?_, ?_,
    ?_, ?_, ?_⟩
  · exact infoQuery_field t c format authKey _ (.string t) (by simp [ParamsInfo.fields, infoRecord])
  · exact infoQuery_field t c format authKey _ (.string c) (by simp [ParamsInfo.fields, infoRecord])
  · exact infoQuery_field t c format authKey (ascii "defaultYN") (.string (ascii "Y"))
      (by simp [ParamsInfo.fields, infoRecord])
  · exact infoQuery_field t c format authKey (ascii "firstImageYN") (.string (ascii "Y"))
      (by simp [ParamsInfo.fields, infoRecord])
  · exact infoQuery_field t c format authKey (ascii "areacodeYN") (.string (ascii "Y"))
      (by simp [ParamsInfo.fields, infoRecord])
  · exact infoQuery_field t c format authKey (ascii "catcodeYN") (.string (ascii "Y"))
      (by simp [ParamsInfo.fields, infoRecord])
  · exact infoQuery_field t c format authKey (ascii "addrinfoYN") (.string (ascii "Y"))
      (by simp [ParamsInfo.fields, infoRecord])
  · exact infoQuery_field t c format authKey (ascii "mapinfoYN") (.string (ascii "Y"))
      (by simp [ParamsInfo.fields, infoRecord])
  · exact infoQuery_field t c format authKey (ascii "overviewYN") (.string (ascii "Y"))
      (by simp [ParamsInfo.fields, infoRecord])
  · exact infoQuery_field t c format authKey _ (.string format)
      (by simp [ParamsInfo.fields, infoRecord])
  · rw [e1]
    exact infoQuery_contains t c format authKey (ascii "contentTypeId") (.string t)
      (by simp [ParamsInfo.fields, infoRecord])
  · rw [e2]
    exact infoQuery_contains t c format authKey (ascii "contentId") (.string c)
      (by simp [ParamsInfo.fields, infoRecord])
  · intro tr w
    have h := requests_GetSightInfo tr t c format authKey w _
      (prepare_info_eq t c format authKey)
    exact h

/-- C1, evaluated: `GetSightList` called in the documented order, the latitude
37.566535 as `x` and the longitude 126.977969 as `y`, with radius 2000 and format
`json`, builds for every key a query that holds the latitude under `mapX` and the
longitude under `mapY`: its text contains `mapX=37.566535` and
`mapY=126.977969`. -/
theorem GetSightList_documented_order (authKey : GoString) :
    ∃ req : OpenAPI,
      GetSightList.prepare c37_566535 c126_977969 c2000 (ascii "json") authKey = some req ∧
      req.Uri.Query.get (ascii "mapX") = [ascii "37.566535"] ∧
      req.Uri.Query.get (ascii "mapY") = [ascii "126.977969"] ∧
      Contains req.Uri.RawQuery (ascii "mapX=37.566535") ∧
      Contains req.Uri.RawQuery (ascii "mapY=126.977969") := by
  have e1 : ascii "mapX=37.566535" = encodePair (ascii "mapX") (Sprint (.float64 c37_566535)) := by
    decide
  have e2 : ascii "mapY=126.977969"
      = encodePair (ascii "mapY") (Sprint (.float64 c126_977969)) := by
    decide
  have s1 : ascii "37.566535" = Sprint (.float64 c37_566535) := by decide
  have s2 : ascii "126.977969" = Sprint (.float64 c126_977969) := by decide
  refine ⟨_, prepare_list_eq _ _ _ _ authKey, ?_, ?_, ?_, ?_⟩
  · rw [s1]
    exact listQuery_field _ _ _ _ authKey (ascii "mapX") (.float64 c37_566535)
      (by simp [ParamsList.fields, listRecord])
  · rw [s2]
    exact listQuery_field _ _ _ _ authKey (ascii "mapY") (.float64 c126_977969)
      (by simp [ParamsList.fields, listRecord])
  · rw [e1]
    exact listQuery_contains _ _ _ _ authKey (ascii "mapX") (.float64 c37_566535)
      (by simp [ParamsList.fields, listRecord])
  · rw [e2]
    exact listQuery_contains _ _ _ _ authKey (ascii "mapY") (.float64 c126_977969)
      (by simp [ParamsList.fields, listRecord])

/-- C2, evaluated: `GetSightInfo` called as its comment documents, the content
ID 129898 as `id` and the content type ID 14 as `typeid`, builds for every key a
query that holds the content ID under `contentTypeId` and the content type ID
under `contentId`. -/
theorem GetSightInfo_documented_order (authKey : GoString) :
    ∃ req : OpenAPI,
      GetSightInfo.prepare (ascii "129898") (ascii "14") (ascii "json") authKey = some req ∧
      req.Uri.Query.get (ascii "contentTypeId") = [ascii "129898"] ∧
      req.Uri.Query.get (ascii "contentId") = [ascii "14"] := by
  refine ⟨_, prepare_info_eq _ _ _ authKey, ?_, ?_⟩
  · exact infoQuery_field _ _ _ authKey _ (.string (ascii "129898"))
      (by simp [ParamsInfo.fields, infoRecord])
  · exact infoQuery_field _ _ _ authKey _ (.string (ascii "14"))
      (by simp [ParamsInfo.fields, infoRecord])

/-- C5, as stated, fails: run with the key `Y` (a non-empty key), the query
`GetSightList` builds holds the key under `ServiceKey`, and the value of the
other field `listYN` is `Y` as well, so the key's text is contained in the value
of another field. -/
theorem key_in_other_field_counterexample :
    ∃ req : OpenAPI,
      GetSightList.prepare c126_977969 c37_566535 c2000 (ascii "json") (ascii "Y") = some req ∧
      ascii "Y" ≠ [] ∧
      req.Uri.Query.get serviceKey = [ascii "Y"] ∧
      ascii "listYN" ≠ serviceKey ∧
      req.Uri.Query.get (ascii "listYN") = [ascii "Y"] ∧
      Contains (ascii "Y") (ascii "Y") := by
  refine ⟨_, prepare_list_eq _ _ _ _ _, by decide, ?_, by decide, ?_, List.infix_refl _⟩
  · exact withQuery_serviceKey listEndpoint (ascii "Y") (.list (listRecord _ _ _ _)) _ rfl
  · exact listQuery_field _ _ _ _ (ascii "Y") (ascii "listYN") (.string (ascii "Y"))
      (by simp [ParamsList.fields, listRecord])

/-- C5, amended: for a URI whose query is empty, every parameter record and
every authentication key, `setParams` succeeds, the decoded query holds under
`ServiceKey` exactly one value, the authentication key itself, the text of the
query contains `ServiceKey=` followed by the escaped key, and under every other
key the query holds the `fmt.Sprint` texts of the record's fields declared under
that key and nothing else: no value but the one of `ServiceKey` is computed from
the authentication key. -/
theorem setParams_service_key (u : URL) (authKey : GoString) (params : Params)
    (fs : List (GoString × GoValue)) (hq : u.RawQuery = []) (hf : params.fields = some fs) :
    ∃ req : OpenAPI,
      OpenAPI.setParams { Uri := u, AuthKey := authKey, Parameters := params } = some req ∧
      req.Uri.Query.get serviceKey = [authKey] ∧
      Contains req.Uri.RawQuery (ascii "ServiceKey=" ++ QueryEscape authKey) ∧
      ∀ tag, tag ≠ serviceKey →
        req.Uri.Query.get tag = (fs.filter (fun f => f.1 = tag)).map (fun f => Sprint f.2) := by
  refine ⟨_, setParams_eq u authKey params fs hq hf, withQuery_serviceKey u authKey params fs hf,
    ?_, ?_⟩
  · have e : ascii "ServiceKey=" ++ QueryEscape authKey = encodePair serviceKey authKey := by
      have : QueryEscape serviceKey ++ [chr '='] = ascii "ServiceKey=" := by decide
      rw [← this, encodePair]
      simp
    rw [e]
    exact builtQuery_contains_key authKey fs
  · intro tag htag
    have h := builtQuery_get authKey fs tag
    rw [if_neg (fun e => htag e.symm)] at h
    exact h

/-- C5 amended, at the endpoint of `GetSightList` with the record of the zero
values and a key of reserved characters. -/
theorem setParams_service_key_witness :
    ∃ req : OpenAPI,
      OpenAPI.setParams { Uri := listEndpoint, AuthKey := ascii "a&b=c+d%", Parameters := .list ParamsList.empty }
        = some req ∧
      req.Uri.Query.get serviceKey = [ascii "a&b=c+d%"] ∧
      Contains req.Uri.RawQuery (ascii "ServiceKey=" ++ QueryEscape (ascii "a&b=c+d%")) ∧
      ∀ tag, tag ≠ serviceKey →
        req.Uri.Query.get tag
          = (ParamsList.empty.fields.filter (fun f => f.1 = tag)).map (fun f => Sprint f.2) :=
  setParams_service_key listEndpoint (ascii "a&b=c+d%") (.list ParamsList.empty) _ rfl rfl

/-- C8: over a stubbed transport `requestTourData` returns an error exactly when
`http.Get` returns one or reading the body returns one, and it is that error;
when both succeed it returns the body as it is, whatever the status code; and
`GetSightList` and `GetSightInfo` then return that same body. -/
theorem requestTourData_result (t : Transport) (api : OpenAPI) (w : World) :
    (∀ err, (api.requestTourData t w).2 = .error err ↔
      (t api.Uri.String = .error err ∨
        ∃ resp, t api.Uri.String = .ok resp ∧ resp.Body = .error err)) ∧
    (∀ code body, t api.Uri.String = .ok { StatusCode := code, Body := .ok body } →
      (api.requestTourData t w).2 = .ok body) ∧
    (∀ (x y r : Float64) (format authKey : GoString), ∃ req : OpenAPI,
      GetSightList.prepare x y r format authKey = some req ∧
      ∀ code body, t req.Uri.String = .ok { StatusCode := code, Body := .ok body } →
        (GetSightList t x y r format authKey w).2 = .returned body) ∧
    (∀ (id typeid format authKey : GoString), ∃ req : OpenAPI,
      GetSightInfo.prepare id typeid format authKey = some req ∧
      ∀ code body, t req.Uri.String = .ok { StatusCode := code, Body := .ok body } →
        (GetSightInfo t id typeid format authKey w).2 = .returned body) := by
  refine ⟨?_, ?_, ?_, ?_⟩
  · intro err
    rw [requestTourData_snd]
    cases h : t api.Uri.String with
    | error e => simp [Except.bind]
    | ok resp => simp [Except.bind]
  · intro code body h
    rw [requestTourData_snd, h]
    rfl
  · intro x y r format authKey
    refine ⟨_, prepare_list_eq x y r format authKey, ?_⟩
    intro code body h
    rw [GetSightList_eq t x y r format authKey w _ (prepare_list_eq x y r format authKey)]
    simp only [requestTourData_snd, h, Except.bind]
  · intro id typeid format authKey
    refine ⟨_, prepare_info_eq id typeid format authKey, ?_⟩
    intro code body h
    rw [GetSightInfo_eq t id typeid format authKey w _ (prepare_info_eq id typeid format authKey)]
    simp only [requestTourData_snd, h, Except.bind]

/-! ### Numeric text -/

theorem digitByte_decimal (n : Nat) (h : n < 10) : decimalByte (digitByte n) = true := by
  interval_cases n <;> decide

theorem digitByte_val (n : Nat) (h : n < 10) : (digitByte n).val - 48 = n := by
  interval_cases n <;> decide

theorem fmtDecLoop_decimal (fuel : Nat) :
    ∀ (u : Nat) (buf : GoString), decimalText buf = true →
      decimalText (fmtDecLoop fuel u buf) = true := by
  induction fuel with
  | zero =>
    intro u buf hb
    simp only [fmtDecLoop, decimalText, List.all_cons, Bool.and_eq_true]
    exact ⟨digitByte_decimal _ (Nat.mod_lt _ (by decide)), hb⟩
  | succ fuel ih =>
    intro u buf hb
    unfold fmtDecLoop
    by_cases h : u ≥ 10
    · rw [if_pos h]
      apply ih
      simp only [decimalText, List.all_cons, Bool.and_eq_true]
      exact ⟨digitByte_decimal _ (Nat.mod_lt _ (by decide)), hb⟩
    · rw [if_neg h]
      simp only [decimalText, List.all_cons, Bool.and_eq_true]
      exact ⟨digitByte_decimal _ (by omega), hb⟩

theorem fmtDecLoop_value (fuel : Nat) :
    ∀ (u : Nat) (buf : GoString), u < 10 ^ (fuel + 1) →
      decimalValue (fmtDecLoop fuel u buf) 0 = decimalValue buf u := by
  induction fuel with
  | zero =>
    intro u buf hu
    have hu10 : u < 10 := by simpa using hu
    simp only [fmtDecLoop, decimalValue, List.foldl_cons]
    rw [digitByte_val _ (Nat.mod_lt _ (by decide)), Nat.mod_eq_of_lt hu10]
    simp
  | succ fuel ih =>
    intro u buf hu
    unfold fmtDecLoop
    by_cases h : u ≥ 10
    · rw [if_pos h, ih (u / 10) _ (by
        rw [Nat.div_lt_iff_lt_mul (by decide)]
        rw [pow_succ] at hu
        exact hu)]
      simp only [decimalValue, List.foldl_cons]
      rw [digitByte_val _ (Nat.mod_lt _ (by decide)), Nat.div_add_mod]
    · rw [if_neg h]
      simp only [decimalValue, List.foldl_cons]
      rw [digitByte_val _ (by omega)]
      simp

/-- The fuel of `fmtInt` is enough: the digits it writes stand for the
magnitude of the integer. -/
theorem fmtDecLoop_natAbs (v : Int) :
    decimalValue (fmtDecLoop v.natAbs v.natAbs []) 0 = v.natAbs := by
  rw [fmtDecLoop_value _ _ _ ((Nat.lt_pow_self (by decide) _).trans
    (Nat.pow_lt_pow_right (by decide) (Nat.lt_succ_self _)))]
  rfl

theorem fmtInt_decimal (v : Int) : decimalText (fmtInt v) = true := by
  unfold fmtInt
  have h := fmtDecLoop_decimal v.natAbs v.natAbs [] rfl
  by_cases hv : v < 0
  · rw [if_pos hv]
    simp only [decimalText, List.singleton_append, List.all_cons, Bool.and_eq_true]
    exact ⟨by decide, h⟩
  · rw [if_neg hv]
    exact h

theorem fmtF_decimal (neg : Bool) (d : List (Fin 10)) (dp prec : Int) :
    decimalText (fmtF neg d dp prec) = true := by
  unfold fmtF decimalText
  rw [List.all_eq_true]
  intro b hb
  simp only [List.mem_append] at hb
  rcases hb with (hb | hb) | hb
  · cases neg
    · simp at hb
    · simp only [if_true, List.mem_singleton] at hb
      subst hb
      decide
  · split at hb
    · rcases List.mem_append.1 hb with hb | hb
      · obtain ⟨x, _, rfl⟩ := List.mem_map.1 hb
        exact digitByte_decimal _ x.isLt
      · rw [List.eq_of_mem_replicate hb]
        decide
    · rw [List.mem_singleton.1 hb]
      decide
  · split at hb
    · rcases List.mem_cons.1 hb with hb | hb
      · subst hb
        decide
      · obtain ⟨i, _, rfl⟩ := List.mem_map.1 hb
        split
        · exact digitByte_decimal _ (Fin.isLt _)
        · decide
    · simp at hb

theorem fmtE_exponent (neg : Bool) (d : List (Fin 10)) (dp prec : Int) :
    chr 'e' ∈ fmtE neg d dp prec := by
  simp [fmtE]

/-- C10, as stated, fails: called with the radius 1000000, whose shortest
decimal form is the digit 1 with the point after seven places, `GetSightList`
sends the radius as `1e+06` (`radius=1e%2B06` in the text of the query), which is
exponent notation and no plain decimal text. -/
theorem radius_exponent_counterexample :
    ∃ req : OpenAPI,
      GetSightList.prepare c126_977969 c37_566535 (.finite false [1] 7) (ascii "json") (ascii "k")
        = some req ∧
      req.Uri.Query.get (ascii "radius") = [ascii "1e+06"] ∧
      Contains req.Uri.RawQuery (ascii "radius=1e%2B06") ∧
      decimalText (ascii "1e+06") = false := by
  have s1 : ascii "1e+06" = Sprint (.float64 (.finite false [1] 7)) := by decide
  have e1 : ascii "radius=1e%2B06"
      = encodePair (ascii "radius") (Sprint (.float64 (.finite false [1] 7))) := by
    decide
  refine ⟨_, prepare_list_eq _ _ _ _ _, ?_, ?_, by decide⟩
  · rw [s1]
    exact listQuery_field _ _ _ _ (ascii "k") (ascii "radius") (.float64 (.finite false [1] 7))
      (by simp [ParamsList.fields, listRecord])
  · rw [e1]
    exact listQuery_contains _ _ _ _ (ascii "k") (ascii "radius") (.float64 (.finite false [1] 7))
      (by simp [ParamsList.fields, listRecord])

/-- C10, amended: for a URI whose query is empty, every key and every
`ParamsList`, `setParams` serializes the integer fields `numOfRows` and `pageNo`
as plain decimal text (a minus sign and digits, for every value), and each
`float64` field (`mapX`, `mapY`, `radius`) as `fmt.Sprint` formats it: a finite
value whose shortest decimal form has the point at `dp`, that is the decimal
exponent `dp - 1`, is plain decimal text when `-4 ≤ dp - 1 < 6` and carries an
exponent part `e` otherwise. -/
theorem setParams_numeric_text (u : URL) (authKey : GoString) (p : ParamsList)
    (hq : u.RawQuery = []) :
    ∃ req : OpenAPI,
      OpenAPI.setParams { Uri := u, AuthKey := authKey, Parameters := .list p } = some req ∧
      (req.Uri.Query.get (ascii "numOfRows") = [fmtInt p.NumOfRows] ∧
        decimalText (fmtInt p.NumOfRows) = true) ∧
      (req.Uri.Query.get (ascii "pageNo") = [fmtInt p.PageNo] ∧
        decimalText (fmtInt p.PageNo) = true) ∧
      ∀ tag f, (tag, GoValue.float64 f) ∈ p.fields →
        req.Uri.Query.get tag = [f.format] ∧
        ∀ neg d dp, f = .finite neg d dp →
          ((-4 ≤ dp - 1 ∧ dp - 1 < 6) → decimalText f.format = true) ∧
          (¬ (-4 ≤ dp - 1 ∧ dp - 1 < 6) → chr 'e' ∈ f.format) := by
  refine ⟨_, setParams_eq u authKey (.list p) p.fields hq rfl, ⟨?_, fmtInt_decimal _⟩,
    ⟨?_, fmtInt_decimal _⟩, ?_⟩
  · exact withQuery_field u authKey (.list p) _ rfl (ascii "numOfRows") (.int p.NumOfRows)
      (by simp [ParamsList.fields])
  · exact withQuery_field u authKey (.list p) _ rfl (ascii "pageNo") (.int p.PageNo)
      (by simp [ParamsList.fields])
  · intro tag f hm
    refine ⟨withQuery_field u authKey (.list p) _ rfl tag (.float64 f) hm, ?_⟩
    intro neg d dp hf
    subst hf
    constructor
    · intro h
      have hn : ¬ (dp - 1 < -4 ∨ dp - 1 ≥ 6) := by omega
      simp only [Float64.format, fmtG, if_neg hn]
      exact fmtF_decimal _ _ _ _
    · intro h
      have hn : dp - 1 < -4 ∨ dp - 1 ≥ 6 := by omega
      simp only [Float64.format, fmtG, if_pos hn]
      exact fmtE_exponent _ _ _ _

/-- C10 amended, at the endpoint of `GetSightList` with the record that `main`
makes it build. -/
theorem setParams_numeric_text_witness :
    ∃ req : OpenAPI,
      OpenAPI.setParams
          { Uri := listEndpoint
            AuthKey := ascii "k"
            Parameters := .list (listRecord c126_977969 c37_566535 c2000 (ascii "json")) }
        = some req ∧
      (req.Uri.Query.get (ascii "numOfRows") = [fmtInt 10] ∧ decimalText (fmtInt 10) = true) ∧
      (req.Uri.Query.get (ascii "pageNo") = [fmtInt 1] ∧ decimalText (fmtInt 1) = true) ∧
      ∀ tag f, (tag, GoValue.float64 f)
          ∈ (listRecord c126_977969 c37_566535 c2000 (ascii "json")).fields →
        req.Uri.Query.get tag = [f.format] ∧
        ∀ neg d dp, f = .finite neg d dp →
          ((-4 ≤ dp - 1 ∧ dp - 1 < 6) → decimalText f.format = true) ∧
          (¬ (-4 ≤ dp - 1 ∧ dp - 1 < 6) → chr 'e' ∈ f.format) :=
  setParams_numeric_text listEndpoint (ascii "k")
    (listRecord c126_977969 c37_566535 c2000 (ascii "json")) rfl

/-- C9: run with no command-line argument (`os.Args` holds the program name
only), `main` prints the usage line, requests no URL and exits with status 0;
run with at least one argument, it calls `GetSightList` and, when that call
returns, `GetSightInfo`, each with the first argument as authentication key: every
URL it requests carries that argument under `ServiceKey`. -/
theorem main_arguments (t : Transport) (prog : GoString) :
    main t [prog] World.start
      = ({ requests := [], stdout := [usage ++ [chr '\n']] }, .exit 0) ∧
    ∀ (key : GoString) (rest : List GoString), ∃ (format : GoString) (r1 r2 : OpenAPI),
      GetSightList.prepare c126_977969 c37_566535 c2000 format key = some r1 ∧
      GetSightInfo.prepare (ascii "14") (ascii "129898") format key = some r2 ∧
      r1.AuthKey = key ∧ r2.AuthKey = key ∧
      r1.Uri.Query.get serviceKey = [key] ∧ r2.Uri.Query.get serviceKey = [key] ∧
      (main t (prog :: key :: rest) World.start).1.requests
        = r1.Uri.String ::
            (match (r1.requestTourData t World.start).2 with
             | .ok _ => [r2.Uri.String]
             | .error _ => []) := by
  refine ⟨rfl, ?_⟩
  intro key rest
  refine ⟨if (prog :: key :: rest).length = 3 then (prog :: key :: rest).getD 2 [] else ascii "json",
    _, _, prepare_list_eq _ _ _ _ key, prepare_info_eq _ _ _ key, rfl, rfl,
    withQuery_serviceKey listEndpoint key (.list (listRecord _ _ _ _)) _ rfl,
    withQuery_serviceKey infoEndpoint key (.info (infoRecord _ _ _)) _ rfl, ?_⟩
  have hlen : (prog :: key :: rest).length > 1 := by simp
  unfold main
  rw [if_pos hlen]
  dsimp only [List.getD_cons_succ, List.getD_cons_zero]
  rw [GetSightList_eq t _ _ _ _ key World.start _ (prepare_list_eq _ _ _ _ key)]
  rw [requestTourData_fst]
  cases (OpenAPI.requestTourData t _ World.start).2 with
  | error e => rfl
  | ok data =>
    dsimp only
    rw [GetSightInfo_eq t _ _ _ key _ _ (prepare_info_eq _ _ _ key)]
    rw [requestTourData_fst]
    cases (OpenAPI.requestTourData t _ _).2 <;> rfl

/-! ### The run of `main`, evaluated -/

set_option maxRecDepth 100000 in
/-- The URL `main` requests first, for the key `KEY` and the format `json`. -/
theorem main_list_url :
    (GetSightList.prepare c126_977969 c37_566535 c2000 (ascii "json") (ascii "KEY")).map
        (fun req => req.Uri.String)
      = some (ascii ("https://api.visitkorea.or.kr/openapi/service/rest/KorService/locationBasedList"
          ++ "?MobileApp=TourAPI3.0_Guide&MobileOS=ETC&ServiceKey=KEY&_type=json&arrange=A&listYN=Y"
          ++ "&mapX=126.977969&mapY=37.566535&numOfRows=10&pageNo=1&radius=2000")) := by
  decide

set_option maxRecDepth 100000 in
/-- The URL `main` requests second, for the key `KEY` and the format `json`. -/
theorem main_info_url :
    (GetSightInfo.prepare (ascii "14") (ascii "129898") (ascii "json") (ascii "KEY")).map
        (fun req => req.Uri.String)
      = some (ascii ("https://api.visitkorea.or.kr/openapi/service/rest/KorService/detailCommon"
          ++ "?MobileApp=TourAPI3.0_Guide&MobileOS=ETC&ServiceKey=KEY&_type=json&addrinfoYN=Y"
          ++ "&areacodeYN=Y&catcodeYN=Y&contentId=129898&contentTypeId=14&defaultYN=Y"
          ++ "&firstImageYN=Y&mapinfoYN=Y&overviewYN=Y")) := by
  decide

/-- The text `fmt.Sprint` gives some `float64` and `int` values. -/
theorem Sprint_values :
    Sprint (.float64 c126_977969) = ascii "126.977969" ∧
    Sprint (.float64 c2000) = ascii "2000" ∧
    Sprint (.float64 .zero) = ascii "0" ∧
    Sprint (.float64 (.finite false [1] 6)) = ascii "100000" ∧
    Sprint (.float64 (.finite false [1] 7)) = ascii "1e+06" ∧
    Sprint (.float64 (.finite false [1, 2, 3, 4, 5, 6, 7, 8, 9] 9)) = ascii "1.23456789e+08" ∧
    Sprint (.float64 (.finite false [1] (-3))) = ascii "0.0001" ∧
    Sprint (.float64 (.finite true [1, 2, 5] (-4))) = ascii "-1.25e-05" ∧
    Sprint (.float64 (.finite false [1] 101)) = ascii "1e+100" ∧
    Sprint (.int (-1203)) = ascii "-1203" ∧
    Sprint (.int 0) = ascii "0" := by
  decide

set_option maxRecDepth 100000 in
/-- A run of `main` with the key `KEY` over a transport that answers every
request with status 500 and the body `B`: two requests, and the body printed
twice. -/
theorem main_run_stub :
    main (fun _ => .ok { StatusCode := 500, Body := .ok (ascii "B") })
        [ascii "main", ascii "KEY"] World.start
      = ({ requests :=
            [ascii ("https://api.visitkorea.or.kr/openapi/service/rest/KorService/locationBasedList"
              ++ "?MobileApp=TourAPI3.0_Guide&MobileOS=ETC&ServiceKey=KEY&_type=json&arrange=A"
              ++ "&listYN=Y&mapX=126.977969&mapY=37.566535&numOfRows=10&pageNo=1&radius=2000"),
             ascii ("https://api.visitkorea.or.kr/openapi/service/rest/KorService/detailCommon"
              ++ "?MobileApp=TourAPI3.0_Guide&MobileOS=ETC&ServiceKey=KEY&_type=json&addrinfoYN=Y"
              ++ "&areacodeYN=Y&catcodeYN=Y&contentId=129898&contentTypeId=14&defaultYN=Y"
              ++ "&firstImageYN=Y&mapinfoYN=Y&overviewYN=Y")],
           stdout := [ascii "B\n", ascii "B\n"] }, .done) := by
  decide

end TourApi
